import Mathlib

/-!
Verification of the endpoint-slice registry core of this repository
(`pilot/pkg/serviceregistry/kube/controller/endpointslice.go`).

Go maps are embedded as association lists (`List (κ × β)`), with lookup,
in-place insert/replace and delete operations mirroring the map operations
used by the source.  Iteration over a map (in `endpointSliceCache.Get`) is
embedded as iteration in list order; where a property depends on iteration
order this is made explicit in the theorems (permutation statements).
-/

set_option autoImplicit false
set_option linter.unusedSectionVars false
set_option linter.unnecessarySeqFocus false
set_option linter.unusedVariables false

namespace IstioSlice

variable {κ : Type} {β : Type}

/-- The keys of an association list. -/
def keys (l : List (κ × β)) : List κ := l.map Prod.fst

@[simp] theorem keys_nil : keys ([] : List (κ × β)) = [] := rfl

@[simp] theorem keys_cons (p : κ × β) (t : List (κ × β)) :
    keys (p :: t) = p.1 :: keys t := rfl

@[simp] theorem keys_append (l₁ l₂ : List (κ × β)) :
    keys (l₁ ++ l₂) = keys l₁ ++ keys l₂ := by
  simp [keys]

variable [DecidableEq κ]

/-- Go map lookup `m[k]` (first matching entry). -/
def alGet : List (κ × β) → κ → Option β
  | [], _ => none
  | p :: t, k => if p.1 = k then some p.2 else alGet t k

/-- Go map write `m[k] = v`: replaces the first entry with key `k` in place,
or appends a new entry when the key is absent. -/
def alSet : List (κ × β) → κ → β → List (κ × β)
  | [], k, v => [(k, v)]
  | p :: t, k, v => if p.1 = k then (k, v) :: t else p :: alSet t k v

/-- Go map `delete(m, k)`: removes every entry with key `k`. -/
def alDel : List (κ × β) → κ → List (κ × β)
  | [], _ => []
  | p :: t, k => if p.1 = k then alDel t k else p :: alDel t k

@[simp] theorem alGet_nil (k : κ) : alGet ([] : List (κ × β)) k = none := rfl

@[simp] theorem alGet_alSet_self (l : List (κ × β)) (k : κ) (v : β) :
    alGet (alSet l k v) k = some v := by
  induction l with
  | nil => simp [alSet, alGet]
  | cons p t ih =>
    by_cases h : p.1 = k <;> simp [alSet, alGet, h, ih]

theorem alGet_alSet_ne (l : List (κ × β)) {k k' : κ} (v : β) (h : k' ≠ k) :
    alGet (alSet l k v) k' = alGet l k' := by
  induction l with
  | nil =>
    have h' : ¬ k = k' := fun e => h e.symm
    simp [alSet, alGet, h']
  | cons p t ih =>
    by_cases hp : p.1 = k
    · have h1 : ¬ k = k' := fun e => h e.symm
      have h2 : ¬ p.1 = k' := fun e => h1 (hp.symm.trans e)
      rw [alSet, if_pos hp, alGet, if_neg h1, alGet, if_neg h2]
    · simp only [alSet, if_neg hp, alGet, ih]

@[simp] theorem alGet_alDel_self (l : List (κ × β)) (k : κ) :
    alGet (alDel l k) k = none := by
  induction l with
  | nil => simp [alDel]
  | cons p t ih =>
    by_cases h : p.1 = k <;> simp [alDel, alGet, h, ih]

theorem alGet_alDel_ne (l : List (κ × β)) {k k' : κ} (h : k' ≠ k) :
    alGet (alDel l k) k' = alGet l k' := by
  induction l with
  | nil => simp [alDel]
  | cons p t ih =>
    by_cases hp : p.1 = k
    · have h2 : ¬ p.1 = k' := fun e => h (e.symm.trans hp)
      rw [alDel, if_pos hp, ih, alGet, if_neg h2]
    · simp only [alDel, if_neg hp, alGet, ih]

theorem alSet_of_alGet_none {l : List (κ × β)} {k : κ} (v : β)
    (h : alGet l k = none) : alSet l k v = l ++ [(k, v)] := by
  induction l with
  | nil => simp [alSet]
  | cons p t ih =>
    by_cases hp : p.1 = k
    · rw [alGet, if_pos hp] at h
      exact absurd h (by simp)
    · rw [alGet, if_neg hp] at h
      rw [alSet, if_neg hp, ih h, List.cons_append]

theorem alSet_of_alGet_some {l : List (κ × β)} {k : κ} {v : β}
    (h : alGet l k = some v) : alSet l k v = l := by
  induction l with
  | nil => simp [alGet] at h
  | cons p t ih =>
    by_cases hp : p.1 = k
    · rw [alGet, if_pos hp] at h
      have hv : p.2 = v := Option.some.inj h
      rw [alSet, if_pos hp, ← hp, ← hv]
    · rw [alGet, if_neg hp] at h
      rw [alSet, if_neg hp, ih h]

theorem alSet_alSet_self (l : List (κ × β)) (k : κ) (v w : β) :
    alSet (alSet l k v) k w = alSet l k w := by
  induction l with
  | nil => simp [alSet]
  | cons p t ih =>
    by_cases hp : p.1 = k <;> simp [alSet, hp, ih]

@[simp] theorem alDel_alDel_self (l : List (κ × β)) (k : κ) :
    alDel (alDel l k) k = alDel l k := by
  induction l with
  | nil => simp [alDel]
  | cons p t ih =>
    by_cases hp : p.1 = k <;> simp [alDel, hp, ih]

theorem alDel_append (l₁ l₂ : List (κ × β)) (k : κ) :
    alDel (l₁ ++ l₂) k = alDel l₁ k ++ alDel l₂ k := by
  induction l₁ with
  | nil => simp [alDel]
  | cons p t ih =>
    by_cases hp : p.1 = k <;> simp [alDel, hp, ih]

theorem alDel_of_not_mem_keys {l : List (κ × β)} {k : κ}
    (h : k ∉ keys l) : alDel l k = l := by
  induction l with
  | nil => rfl
  | cons p t ih =>
    rw [keys_cons, List.mem_cons] at h
    push_neg at h
    have hp : ¬ p.1 = k := fun e => h.1 e.symm
    rw [alDel, if_neg hp, ih h.2]

theorem mem_keys_alSet (l : List (κ × β)) (k a : κ) (v : β) :
    a ∈ keys (alSet l k v) ↔ a = k ∨ a ∈ keys l := by
  induction l with
  | nil => simp [alSet]
  | cons p t ih =>
    by_cases hp : p.1 = k
    · subst hp
      rw [alSet, if_pos rfl, keys_cons, keys_cons, List.mem_cons]
      show a = p.1 ∨ a ∈ keys t ↔ a = p.1 ∨ a = p.1 ∨ a ∈ keys t
      tauto
    · rw [alSet, if_neg hp, keys_cons, keys_cons, List.mem_cons, List.mem_cons, ih]
      tauto

theorem alDel_sublist (l : List (κ × β)) (k : κ) : (alDel l k).Sublist l := by
  induction l with
  | nil => simp [alDel]
  | cons p t ih =>
    by_cases hp : p.1 = k
    · rw [alDel, if_pos hp]
      exact ih.trans (List.sublist_cons_self p t)
    · rw [alDel, if_neg hp]
      exact ih.cons₂ p

theorem nodup_keys_alDel {l : List (κ × β)} (k : κ)
    (h : (keys l).Nodup) : (keys (alDel l k)).Nodup :=
  ((alDel_sublist l k).map Prod.fst).nodup h

theorem nodup_keys_alSet {l : List (κ × β)} (k : κ) (v : β)
    (h : (keys l).Nodup) : (keys (alSet l k v)).Nodup := by
  induction l with
  | nil => simp [alSet, keys]
  | cons p t ih =>
    rw [keys_cons, List.nodup_cons] at h
    by_cases hp : p.1 = k
    · subst hp
      rw [alSet, if_pos rfl, keys_cons, List.nodup_cons]
      exact ⟨h.1, h.2⟩
    · rw [alSet, if_neg hp, keys_cons, List.nodup_cons]
      refine ⟨?_, ih h.2⟩
      intro hm
      rcases (mem_keys_alSet t k p.1 v).1 hm with he | hm'
      · exact hp he
      · exact h.1 hm'

theorem alDel_alSet_self (l : List (κ × β)) (k : κ) (v : β) :
    alDel (alSet l k v) k = alDel l k := by
  induction l with
  | nil => simp [alSet, alDel]
  | cons p t ih =>
    by_cases hp : p.1 = k
    · rw [alSet, if_pos hp, alDel, if_pos rfl, alDel, if_pos hp]
    · rw [alSet, if_neg hp, alDel, if_neg hp, alDel, if_neg hp, ih]

theorem perm_alDel {l₁ l₂ : List (κ × β)} (h : l₁.Perm l₂) (k : κ) :
    (alDel l₁ k).Perm (alDel l₂ k) := by
  induction h with
  | nil => exact List.Perm.refl _
  | cons x _ ih =>
    by_cases hx : x.1 = k
    · simpa [alDel, hx] using ih
    · simpa [alDel, hx] using ih.cons x
  | swap x y l =>
    by_cases hx : x.1 = k <;> by_cases hy : y.1 = k <;>
      simp [alDel, hx, hy] <;>
      first
        | exact List.Perm.refl _
        | exact List.Perm.swap _ _ _
  | trans _ _ ih₁ ih₂ => exact ih₁.trans ih₂

/-- The association list `alSet l k v` is, up to reordering, the entry `(k, v)`
together with all entries of `l` for other keys. -/
theorem alSet_perm {l : List (κ × β)} (hnd : (keys l).Nodup) (k : κ) (v : β) :
    (alSet l k v).Perm ((k, v) :: alDel l k) := by
  induction l with
  | nil => exact List.Perm.refl _
  | cons p t ih =>
    rw [keys_cons, List.nodup_cons] at hnd
    by_cases hp : p.1 = k
    · have hk : k ∉ keys t := hp ▸ hnd.1
      rw [alSet, if_pos hp, alDel, if_pos hp, alDel_of_not_mem_keys hk]
    · have ht := ih hnd.2
      rw [alSet, if_neg hp, alDel, if_neg hp]
      exact (ht.cons p).trans (List.Perm.swap _ _ _)

section Values

variable {γ : Type}

/-- Removes the entries whose value is the empty list. -/
def dropEmpties : List (κ × List γ) → List (κ × List γ)
  | [] => []
  | p :: t => if p.2.isEmpty then dropEmpties t else p :: dropEmpties t

@[simp] theorem dropEmpties_nil : dropEmpties ([] : List (κ × List γ)) = [] := rfl

theorem dropEmpties_append (l₁ l₂ : List (κ × List γ)) :
    dropEmpties (l₁ ++ l₂) = dropEmpties l₁ ++ dropEmpties l₂ := by
  induction l₁ with
  | nil => rfl
  | cons p t ih =>
    by_cases hp : p.2.isEmpty <;> simp [dropEmpties, hp, ih]

theorem dropEmpties_alDel (l : List (κ × List γ)) (k : κ) :
    dropEmpties (alDel l k) = alDel (dropEmpties l) k := by
  induction l with
  | nil => rfl
  | cons p t ih =>
    by_cases hk : p.1 = k <;> by_cases he : p.2.isEmpty <;>
      simp [alDel, dropEmpties, hk, he, ih]

theorem perm_dropEmpties {l₁ l₂ : List (κ × List γ)} (h : l₁.Perm l₂) :
    (dropEmpties l₁).Perm (dropEmpties l₂) := by
  induction h with
  | nil => exact List.Perm.refl _
  | cons x _ ih =>
    by_cases hx : x.2.isEmpty
    · simpa [dropEmpties, hx] using ih
    · simpa [dropEmpties, hx] using ih.cons x
  | swap x y l =>
    by_cases hx : x.2.isEmpty <;> by_cases hy : y.2.isEmpty <;>
      simp [dropEmpties, hx, hy] <;>
      first
        | exact List.Perm.refl _
        | exact List.Perm.swap _ _ _
  | trans _ _ ih₁ ih₂ => exact ih₁.trans ih₂

/-- Concatenation of all values of an association list, in list order.  This is
how `endpointSliceCache.Get` iterates its inner Go map. -/
def joinVals (l : List (κ × List γ)) : List γ := (l.map Prod.snd).flatten

@[simp] theorem joinVals_nil : joinVals ([] : List (κ × List γ)) = [] := rfl

@[simp] theorem joinVals_cons (p : κ × List γ) (t : List (κ × List γ)) :
    joinVals (p :: t) = p.2 ++ joinVals t := rfl

/-- Entries with empty value contribute nothing to the concatenation. -/
theorem joinVals_dropEmpties (l : List (κ × List γ)) :
    joinVals (dropEmpties l) = joinVals l := by
  induction l with
  | nil => rfl
  | cons p t ih =>
    by_cases he : p.2.isEmpty
    · have : p.2 = [] := List.isEmpty_iff.mp he
      simp [dropEmpties, he, ih, this]
    · simp [dropEmpties, he, ih]

theorem perm_joinVals {l₁ l₂ : List (κ × List γ)} (h : l₁.Perm l₂) :
    (joinVals l₁).Perm (joinVals l₂) :=
  (h.map Prod.snd).flatten

end Values

/-- Modelled from the spec: `model.IstioEndpoint` (the Endpoint Record; the package
`pilot/pkg/model` is not under src/).  Per the spec an Endpoint Record carries the
address, port number, port name, locality and the owning workload's labels. -/
structure IstioEndpoint where
  address : String
  endpointPort : Int
  servicePortName : String
  locality : String
  labels : List (String × String)
deriving DecidableEq

/-- The `endpointsByServiceAndSlice` field of `endpointSliceCache`:
hostname ↦ (slice name ↦ contributed records). -/
abbrev EndpointCacheMap := List (String × List (String × List IstioEndpoint))

/-- `newEndpointSliceCache` (endpointslice.go:295-300): the empty cache. -/
def newEndpointSliceCache : EndpointCacheMap := []

/-- The inner slice map stored for a hostname; a missing hostname reads as the
empty map, as a nil Go map does. -/
def innerOf (m : EndpointCacheMap) (hostname : String) :
    List (String × List IstioEndpoint) :=
  (alGet m hostname).getD []

/-- `endpointSliceCache.Update` (endpointslice.go:302-312), statement by statement:
when `len(endpoints) == 0` it deletes the slice key from the inner map; it then
creates the inner map if the hostname key is absent; finally it unconditionally
stores `endpoints` under the slice key. -/
def cacheUpdate (m : EndpointCacheMap) (hostname slice : String)
    (endpoints : List IstioEndpoint) : EndpointCacheMap :=
  let m1 :=
    if endpoints.length = 0 then
      match alGet m hostname with
      | some inner => alSet m hostname (alDel inner slice)
      | none => m
    else m
  let m2 :=
    match alGet m1 hostname with
    | some _ => m1
    | none => alSet m1 hostname []
  match alGet m2 hostname with
  | some inner => alSet m2 hostname (alSet inner slice endpoints)
  | none => m2

/-- `endpointSliceCache.Get` (endpointslice.go:314-322): appends every slice's
records in map-iteration order (embedded as list order); a hostname with no
entry yields the empty list. -/
def cacheGet (m : EndpointCacheMap) (hostname : String) : List IstioEndpoint :=
  joinVals (innerOf m hostname)

/-- The net effect of `cacheUpdate` on the inner map of the written hostname. -/
def updInner (ci : List (String × List IstioEndpoint)) (slice : String)
    (endpoints : List IstioEndpoint) : List (String × List IstioEndpoint) :=
  if endpoints.length = 0 then alSet (alDel ci slice) slice endpoints
  else alSet ci slice endpoints

theorem cacheUpdate_eq (m : EndpointCacheMap) (hostname slice : String)
    (endpoints : List IstioEndpoint) :
    cacheUpdate m hostname slice endpoints =
      alSet m hostname (updInner (innerOf m hostname) slice endpoints) := by
  by_cases hl : endpoints.length = 0 <;>
    cases hg : alGet m hostname <;>
      simp [cacheUpdate, updInner, innerOf, hl, hg, alGet_alSet_self,
        alSet_alSet_self, alDel]

theorem alGet_cacheUpdate_self (m : EndpointCacheMap) (hostname slice : String)
    (endpoints : List IstioEndpoint) :
    alGet (cacheUpdate m hostname slice endpoints) hostname =
      some (updInner (innerOf m hostname) slice endpoints) := by
  rw [cacheUpdate_eq, alGet_alSet_self]

theorem innerOf_cacheUpdate_self (m : EndpointCacheMap) (hostname slice : String)
    (endpoints : List IstioEndpoint) :
    innerOf (cacheUpdate m hostname slice endpoints) hostname =
      updInner (innerOf m hostname) slice endpoints := by
  rw [innerOf, alGet_cacheUpdate_self]
  rfl

theorem innerOf_cacheUpdate_ne (m : EndpointCacheMap) {h h' : String}
    (slice : String) (endpoints : List IstioEndpoint) (hne : h' ≠ h) :
    innerOf (cacheUpdate m h slice endpoints) h' = innerOf m h' := by
  rw [innerOf, cacheUpdate_eq, alGet_alSet_ne _ _ hne]
  rfl

theorem updInner_idem (ci : List (String × List IstioEndpoint)) (slice : String)
    (endpoints : List IstioEndpoint) :
    updInner (updInner ci slice endpoints) slice endpoints =
      updInner ci slice endpoints := by
  by_cases hl : endpoints.length = 0
  · have he : endpoints = [] := List.length_eq_zero.mp hl
    subst he
    simp [updInner, alDel_alSet_self, alDel_alDel_self]
  · simp only [updInner, if_neg hl]
    rw [alSet_alSet_self]

/-- A concrete Endpoint Record used in concrete evaluations. -/
def sampleEndpoint (a : String) : IstioEndpoint :=
  { address := a, endpointPort := 80, servicePortName := "http",
    locality := "", labels := [] }

/-- The Slice Cache update as the spec's P1/P2 words state it: an empty `records`
list deletes the slice's entry entirely, a non-empty one replaces the slice's
contribution in an insertion-ordered map.  Reference definition for the
refinement statements below. -/
def specUpdate (m : EndpointCacheMap) (hostname slice : String)
    (endpoints : List IstioEndpoint) : EndpointCacheMap :=
  if endpoints.length = 0 then
    match alGet m hostname with
    | some inner => alSet m hostname (alDel inner slice)
    | none => m
  else
    alSet m hostname (alSet (innerOf m hostname) slice endpoints)

/-- The net effect of `specUpdate` on the inner map of the written hostname. -/
def specUpdInner (si : List (String × List IstioEndpoint)) (slice : String)
    (endpoints : List IstioEndpoint) : List (String × List IstioEndpoint) :=
  if endpoints.length = 0 then alDel si slice else alSet si slice endpoints

theorem innerOf_specUpdate_self (m : EndpointCacheMap) (hostname slice : String)
    (endpoints : List IstioEndpoint) :
    innerOf (specUpdate m hostname slice endpoints) hostname =
      specUpdInner (innerOf m hostname) slice endpoints := by
  by_cases hl : endpoints.length = 0 <;>
    cases hg : alGet m hostname <;>
      simp [specUpdate, specUpdInner, innerOf, hl, hg, alGet_alSet_self, alDel]

theorem innerOf_specUpdate_ne (m : EndpointCacheMap) {h h' : String}
    (slice : String) (endpoints : List IstioEndpoint) (hne : h' ≠ h) :
    innerOf (specUpdate m h slice endpoints) h' = innerOf m h' := by
  unfold specUpdate
  by_cases hl : endpoints.length = 0
  · rw [if_pos hl]
    cases hg : alGet m h with
    | some inner =>
      simp only [innerOf]
      rw [alGet_alSet_ne _ _ hne]
    | none => rfl
  · rw [if_neg hl]
    simp only [innerOf]
    rw [alGet_alSet_ne _ _ hne]

/-- One recorded `update(h, s, recs)` call. -/
structure UpdateOp where
  host : String
  slice : String
  recs : List IstioEndpoint
deriving DecidableEq

/-- Replays a sequence of `update` calls against the code's cache, starting from
the cache `newEndpointSliceCache` creates. -/
def replayCode (ops : List UpdateOp) : EndpointCacheMap :=
  ops.foldl (fun m op => cacheUpdate m op.host op.slice op.recs) newEndpointSliceCache

/-- Replays the same calls against the spec-level map. -/
def replaySpec (ops : List UpdateOp) : EndpointCacheMap :=
  ops.foldl (fun m op => specUpdate m op.host op.slice op.recs) newEndpointSliceCache

/-- The merged view the spec's P1 describes: the latest non-empty contribution of
every slice of the hostname, concatenated in slice-insertion order. -/
def specMergedView (ops : List UpdateOp) (hostname : String) : List IstioEndpoint :=
  joinVals (innerOf (replaySpec ops) hostname)

/-- Refinement invariant between the code's cache and the spec-level map: per
hostname, keys are unique on both sides and the code's inner map agrees with the
spec's after discarding the dangling empty entries the code leaves behind. -/
def CacheRel (mc ms : EndpointCacheMap) : Prop :=
  ∀ h, (keys (innerOf mc h)).Nodup ∧ (keys (innerOf ms h)).Nodup ∧
    (dropEmpties (innerOf mc h)).Perm (innerOf ms h)

theorem updInner_nodup_keys {ci : List (String × List IstioEndpoint)}
    (slice : String) (eps : List IstioEndpoint) (h : (keys ci).Nodup) :
    (keys (updInner ci slice eps)).Nodup := by
  unfold updInner
  split
  · exact nodup_keys_alSet _ _ (nodup_keys_alDel _ h)
  · exact nodup_keys_alSet _ _ h

theorem specUpdInner_nodup_keys {si : List (String × List IstioEndpoint)}
    (slice : String) (eps : List IstioEndpoint) (h : (keys si).Nodup) :
    (keys (specUpdInner si slice eps)).Nodup := by
  unfold specUpdInner
  split
  · exact nodup_keys_alDel _ h
  · exact nodup_keys_alSet _ _ h

theorem innerRel_step {ci si : List (String × List IstioEndpoint)}
    (hc : (keys ci).Nodup) (hs : (keys si).Nodup)
    (hperm : (dropEmpties ci).Perm si) (slice : String) (eps : List IstioEndpoint) :
    (dropEmpties (updInner ci slice eps)).Perm (specUpdInner si slice eps) := by
  by_cases hl : eps.length = 0
  · have he : eps = [] := List.length_eq_zero.mp hl
    subst he
    have hstep : updInner ci slice [] = alDel ci slice ++ [(slice, [])] := by
      simp [updInner, alSet_of_alGet_none _ (alGet_alDel_self ci slice)]
    have hspec : specUpdInner si slice ([] : List IstioEndpoint) = alDel si slice := by
      simp [specUpdInner]
    have h2 : dropEmpties [(slice, ([] : List IstioEndpoint))] = [] := rfl
    rw [hstep, hspec, dropEmpties_append, h2, List.append_nil, dropEmpties_alDel]
    exact perm_alDel hperm slice
  · simp only [updInner, specUpdInner, if_neg hl]
    have hcode := perm_dropEmpties (alSet_perm hc slice eps)
    have hne : eps.isEmpty = false := by
      cases eps with
      | nil => exact absurd rfl hl
      | cons a t => rfl
    have h3 : dropEmpties ((slice, eps) :: alDel ci slice)
        = (slice, eps) :: dropEmpties (alDel ci slice) := by
      simp [dropEmpties, hne]
    rw [h3, dropEmpties_alDel] at hcode
    refine hcode.trans ?_
    refine (List.Perm.cons _ (perm_alDel hperm slice)).trans ?_
    exact (alSet_perm hs slice eps).symm

theorem cacheRel_empty : CacheRel newEndpointSliceCache newEndpointSliceCache := by
  intro h
  refine ⟨?_, ?_, ?_⟩ <;> simp [innerOf, newEndpointSliceCache, alGet]

theorem cacheRel_update {mc ms : EndpointCacheMap} (hrel : CacheRel mc ms)
    (hostname slice : String) (eps : List IstioEndpoint) :
    CacheRel (cacheUpdate mc hostname slice eps) (specUpdate ms hostname slice eps) := by
  intro h
  by_cases hh : h = hostname
  · subst hh
    rw [innerOf_cacheUpdate_self, innerOf_specUpdate_self]
    obtain ⟨hc, hs, hperm⟩ := hrel h
    exact ⟨updInner_nodup_keys _ _ hc, specUpdInner_nodup_keys _ _ hs,
      innerRel_step hc hs hperm _ _⟩
  · rw [innerOf_cacheUpdate_ne _ _ _ hh, innerOf_specUpdate_ne _ _ _ hh]
    exact hrel h

theorem cacheRel_replay (ops : List UpdateOp) :
    CacheRel (replayCode ops) (replaySpec ops) := by
  have H : ∀ mc ms, CacheRel mc ms →
      CacheRel (ops.foldl (fun m op => cacheUpdate m op.host op.slice op.recs) mc)
        (ops.foldl (fun m op => specUpdate m op.host op.slice op.recs) ms) := by
    induction ops with
    | nil => exact fun mc ms h => h
    | cons op t ih =>
      intro mc ms h
      exact ih _ _ (cacheRel_update h op.host op.slice op.recs)
  exact H _ _ cacheRel_empty

/-- C1: evaluation of `endpointSliceCache.Update` at the failing input
`update("h","s",[r])` then `update("h","s",[])`.  The claim (and the spec's P2)
says no internal entry for ("h","s") remains reachable; the code instead leaves
the dangling entry `("s", [])` reachable, because `Update` falls through after
the `delete` and unconditionally re-stores the empty list.  The second conjunct
shows the other half of the claim — a subsequent `get` excludes slice s's
records — does hold at this input. -/
theorem c1_update_empty_leaves_reachable_entry :
    alGet (innerOf (cacheUpdate
        (cacheUpdate newEndpointSliceCache "h" "s" [sampleEndpoint "10.0.0.1"])
        "h" "s" []) "h") "s" = some [] ∧
    cacheGet (cacheUpdate
        (cacheUpdate newEndpointSliceCache "h" "s" [sampleEndpoint "10.0.0.1"])
        "h" "s" []) "h" = [] :=
  ⟨rfl, rfl⟩

/-- C2 (amended): for every sequence of `update` calls, `get(h)` is a
permutation of the concatenation, in slice-insertion order, of the latest
non-empty records of every slice of `h` (the spec-level replay); consequently a
hostname with zero live slices yields the empty result (never an error).
Equality as ordered lists fails — see the counterexample theorem. -/
theorem c2_get_matches_spec_merge_up_to_order (ops : List UpdateOp) (h : String) :
    (cacheGet (replayCode ops) h).Perm (specMergedView ops h) ∧
      (innerOf (replaySpec ops) h = [] → cacheGet (replayCode ops) h = []) := by
  obtain ⟨hc, hs, hperm⟩ := cacheRel_replay ops h
  have hp : (cacheGet (replayCode ops) h).Perm (specMergedView ops h) := by
    rw [cacheGet, specMergedView, ← joinVals_dropEmpties (innerOf (replayCode ops) h)]
    exact perm_joinVals hperm
  refine ⟨hp, fun hz => ?_⟩
  have hzv : specMergedView ops h = [] := by
    rw [specMergedView, hz, joinVals_nil]
  exact (hzv ▸ hp).eq_nil

/-- C2 witness: instantiating the theorem at the single call `update("h","s",[])`,
whose spec-level replay holds zero live slices, so `get("h")` is empty. -/
theorem c2_get_matches_spec_merge_witness :
    cacheGet (replayCode [⟨"h", "s", []⟩]) "h" = [] :=
  (c2_get_matches_spec_merge_up_to_order [⟨"h", "s", []⟩] "h").2 rfl

/-- C2 counterexample: replaying `update(h,a,[])`, `update(h,b,[rb])`,
`update(h,a,[ra])` the code's `get(h)` returns `[ra, rb]`, while the
concatenation in slice-insertion order of the latest non-empty records is
`[rb, ra]` (slice `a` was deleted and re-inserted after `b`): the dangling empty
entry left behind by the empty update keeps slice `a`'s old map position, so the
claimed ordered equality fails. -/
theorem c2_get_insertion_order_counterexample :
    cacheGet (replayCode [⟨"h", "a", []⟩, ⟨"h", "b", [sampleEndpoint "10.0.0.2"]⟩,
        ⟨"h", "a", [sampleEndpoint "10.0.0.1"]⟩]) "h" =
      [sampleEndpoint "10.0.0.1", sampleEndpoint "10.0.0.2"] ∧
    specMergedView [⟨"h", "a", []⟩, ⟨"h", "b", [sampleEndpoint "10.0.0.2"]⟩,
        ⟨"h", "a", [sampleEndpoint "10.0.0.1"]⟩] "h" =
      [sampleEndpoint "10.0.0.2", sampleEndpoint "10.0.0.1"] ∧
    cacheGet (replayCode [⟨"h", "a", []⟩, ⟨"h", "b", [sampleEndpoint "10.0.0.2"]⟩,
        ⟨"h", "a", [sampleEndpoint "10.0.0.1"]⟩]) "h" ≠
      specMergedView [⟨"h", "a", []⟩, ⟨"h", "b", [sampleEndpoint "10.0.0.2"]⟩,
        ⟨"h", "a", [sampleEndpoint "10.0.0.1"]⟩] "h" := by
  refine ⟨rfl, rfl, ?_⟩
  decide

/-- C3: `update` is idempotent — repeating `update(h,s,R)` leaves the cache state
unchanged, so every `get` result is identical before and after the second call
and the second call has no observable effect beyond the redundant write. -/
theorem c3_update_idempotent (m : EndpointCacheMap) (h s : String)
    (R : List IstioEndpoint) :
    cacheUpdate (cacheUpdate m h s R) h s R = cacheUpdate m h s R ∧
      ∀ q, cacheGet (cacheUpdate (cacheUpdate m h s R) h s R) q =
        cacheGet (cacheUpdate m h s R) q := by
  have hstate : cacheUpdate (cacheUpdate m h s R) h s R = cacheUpdate m h s R := by
    calc cacheUpdate (cacheUpdate m h s R) h s R
        = alSet (cacheUpdate m h s R) h
            (updInner (innerOf (cacheUpdate m h s R) h) s R) := cacheUpdate_eq ..
      _ = alSet (cacheUpdate m h s R) h
            (updInner (updInner (innerOf m h) s R) s R) := by
            rw [innerOf_cacheUpdate_self]
      _ = alSet (cacheUpdate m h s R) h (updInner (innerOf m h) s R) := by
            rw [updInner_idem]
      _ = alSet (alSet m h (updInner (innerOf m h) s R)) h
            (updInner (innerOf m h) s R) := by
            rw [cacheUpdate_eq]
      _ = alSet m h (updInner (innerOf m h) s R) := alSet_alSet_self ..
      _ = cacheUpdate m h s R := (cacheUpdate_eq ..).symm
  exact ⟨hstate, fun q => by rw [hstate]⟩

/-- C4: an update to slice `s1` of hostname `h` never alters the contribution
stored for a different slice `s2` of the same hostname. -/
theorem c4_update_preserves_other_slice (m : EndpointCacheMap) (h s1 s2 : String)
    (recs : List IstioEndpoint) (hne : s1 ≠ s2) :
    alGet (innerOf (cacheUpdate m h s1 recs) h) s2 = alGet (innerOf m h) s2 := by
  rw [innerOf_cacheUpdate_self]
  unfold updInner
  split
  · rw [alGet_alSet_ne _ _ (Ne.symm hne), alGet_alDel_ne _ (Ne.symm hne)]
  · rw [alGet_alSet_ne _ _ (Ne.symm hne)]

/-- C4 witness: writing slice "s1" leaves the stored contribution of slice "s2"
of the same hostname untouched. -/
theorem c4_update_preserves_other_slice_witness :
    alGet (innerOf (cacheUpdate
        (cacheUpdate newEndpointSliceCache "h" "s2" [sampleEndpoint "10.0.0.2"])
        "h" "s1" [sampleEndpoint "10.0.0.1"]) "h") "s2" =
      alGet (innerOf (cacheUpdate newEndpointSliceCache "h" "s2"
        [sampleEndpoint "10.0.0.2"]) "h") "s2" :=
  c4_update_preserves_other_slice _ "h" "s1" "s2" _ (by decide)

/-- `NodeRegionLabelGA` (constant defined outside src/): the GA node-topology
region label key. -/
def NodeRegionLabelGA : String := "topology.kubernetes.io/region"

/-- `NodeZoneLabelGA` (constant defined outside src/): the GA node-topology zone
label key. -/
def NodeZoneLabelGA : String := "topology.kubernetes.io/zone"

/-- `IstioSubzoneLabel` (constant defined outside src/): the istio subzone label
key. -/
def IstioSubzoneLabel : String := "topology.istio.io/subzone"

/-- `model.LocalityLabel` (constant defined outside src/): the explicit workload
locality label key. -/
def LocalityLabel : String := "istio-locality"

/-- `getLocalityFromTopology` (endpointslice.go:279-288): starts from the region
value (empty string when the key is absent), then appends "/"+zone when the zone
key is present, then "/"+subzone when the subzone key is present. -/
def getLocalityFromTopology (topology : List (String × String)) : String :=
  let locality := (alGet topology NodeRegionLabelGA).getD ""
  let locality :=
    match alGet topology NodeZoneLabelGA with
    | some z => locality ++ "/" ++ z
    | none => locality
  match alGet topology IstioSubzoneLabel with
  | some sz => locality ++ "/" ++ sz
  | none => locality

/-- Joins the given components with "/", with no separator beyond the components
present. -/
def joinSlash : List String → String
  | [] => ""
  | [x] => x
  | x :: xs => x ++ "/" ++ joinSlash xs

/-- The locality the spec's words describe: the region, zone and subzone values
present in the topology map, in that fixed order, joined by "/" with missing
fields simply omitted. -/
def localityJoinSpec (topology : List (String × String)) : String :=
  joinSlash ([alGet topology NodeRegionLabelGA, alGet topology NodeZoneLabelGA,
    alGet topology IstioSubzoneLabel].filterMap id)

/-- C5 counterexample: a topology map carrying a zone but no region.  The claim
says missing fields are omitted so no derived locality has a leading separator,
but the code starts from the empty region value and produces "/zone1" instead of
"zone1". -/
theorem c5_locality_counterexample :
    getLocalityFromTopology [(NodeZoneLabelGA, "zone1")] = "/zone1" ∧
    localityJoinSpec [(NodeZoneLabelGA, "zone1")] = "zone1" ∧
    getLocalityFromTopology [(NodeZoneLabelGA, "zone1")] ≠
      localityJoinSpec [(NodeZoneLabelGA, "zone1")] := by
  refine ⟨rfl, rfl, ?_⟩
  decide

/-- C5 (amended): whenever the region label is present — or zone and subzone are
both absent — the derived locality is exactly the present region/zone/subzone
values in that fixed order joined by "/" with missing fields omitted; in
particular "region only" yields just the region with no trailing separator.
(When the region is absent but a zone or subzone is present, the code instead
emits a leading separator for the blank region.) -/
theorem c5_locality_joins_present_fields (t : List (String × String))
    (hreg : (alGet t NodeRegionLabelGA).isSome ∨
      (alGet t NodeZoneLabelGA = none ∧ alGet t IstioSubzoneLabel = none)) :
    getLocalityFromTopology t = localityJoinSpec t := by
  rcases hreg with hr | ⟨hz, hsz⟩
  · obtain ⟨r, hr⟩ := Option.isSome_iff_exists.mp hr
    cases hz : alGet t NodeZoneLabelGA <;>
      cases hs : alGet t IstioSubzoneLabel <;>
        simp [getLocalityFromTopology, localityJoinSpec, joinSlash, hr, hz, hs,
          String.append_assoc]
  · cases hr : alGet t NodeRegionLabelGA <;>
      simp [getLocalityFromTopology, localityJoinSpec, joinSlash, hz, hsz, hr]

/-- C5 witness: a region-plus-zone topology derives "r/z", matching the spec's
join, with the region-presence hypothesis discharged concretely. -/
theorem c5_locality_joins_present_fields_witness :
    getLocalityFromTopology [(NodeRegionLabelGA, "r"), (NodeZoneLabelGA, "z")] =
      localityJoinSpec [(NodeRegionLabelGA, "r"), (NodeZoneLabelGA, "z")] :=
  c5_locality_joins_present_fields _ (Or.inl (by decide))

/-- A pod: only its labels matter to this core. -/
structure Pod where
  labels : List (String × String)
deriving DecidableEq

/-- Modelled from the spec: `model.Port` (not under src/) — a service port has a
name and a number. -/
structure ServicePort where
  name : String
  port : Int
deriving DecidableEq

/-- Modelled from the spec: `model.Service` (not under src/) — the service
descriptor with its name/namespace attributes and port list. -/
structure Service where
  attrName : String
  attrNamespace : String
  ports : List ServicePort
deriving DecidableEq

/-- One endpoint group of a slice (`discoveryv1alpha1.Endpoint`): addresses, the
readiness condition (`nil`/true/false), the target-reference kind when a
`TargetRef` is set, and the node-topology labels. -/
structure EndpointGo where
  addresses : List String
  ready : Option Bool
  targetRefKind : Option String
  topology : List (String × String)
deriving DecidableEq

/-- `discoveryv1alpha1.EndpointPort`: optional name and number. -/
structure EndpointPortGo where
  name : Option String
  port : Option Int
deriving DecidableEq

/-- The fields of `discoveryv1alpha1.EndpointSlice` the controller reads: the
object name and namespace, the service-name label value, and the endpoint and
port lists. -/
structure EndpointSliceGo where
  name : String
  ns : String
  serviceName : String
  endpoints : List EndpointGo
  ports : List EndpointPortGo
deriving DecidableEq

/-- The controller state the handler and queries consult: domain suffix, cluster
identity, the `servicesMap` (Service Metadata, hostname-keyed) and the
`pods.getPodByIP` lookup. -/
structure ControllerState where
  domainSuffix : String
  clusterID : String
  servicesMap : List (String × Service)
  pods : String → Option Pod

/-- `model.Event`: the kind of watch event. -/
inductive Event where
  | add
  | update
  | delete
deriving DecidableEq

/-- One downstream `EDSUpdate` push: cluster id, hostname, namespace and the
full merged view handed to the xDS updater. -/
structure EDSPush where
  clusterID : String
  hostname : String
  ns : String
  endpoints : List IstioEndpoint
deriving DecidableEq

/-- Modelled from the spec: `kube.ServiceHostname` (not under src/) forms the
hostname key `name.namespace.svc.domainSuffix`. -/
def serviceHostname (name ns domainSuffix : String) : String :=
  name ++ "." ++ ns ++ ".svc." ++ domainSuffix

/-- Modelled from the spec: `EndpointBuilder` (endpoint_builder.go is not under
src/) captures the workload context used to produce records — the workload's
locality (its `istio-locality` label) and its labels. -/
structure EndpointBuilder where
  locality : String
  labels : List (String × String)
deriving DecidableEq

/-- Modelled from the spec: `NewEndpointBuilder` reads the workload context from
the pod; with no pod the context is empty (services without selectors still get
records). -/
def NewEndpointBuilder (c : ControllerState) (pod : Option Pod) : EndpointBuilder :=
  match pod with
  | some p => { locality := (alGet p.labels LocalityLabel).getD "",
                labels := p.labels }
  | none => { locality := "", labels := [] }

/-- `endpointSliceController.newEndpointBuilder` (endpointslice.go:266-277): when
the pod carries no explicit `istio-locality` label (absent or empty), a copy of
the pod with that label set from the endpoint's topology is used. -/
def newEndpointBuilder (c : ControllerState) (pod : Option Pod) (e : EndpointGo) :
    EndpointBuilder :=
  let pod :=
    match pod with
    | some p =>
      if (alGet p.labels LocalityLabel).getD "" = "" then
        some { p with
               labels := alSet p.labels LocalityLabel
                           (getLocalityFromTopology e.topology) }
      else some p
    | none => none
  NewEndpointBuilder c pod

/-- Modelled from the spec: `EndpointBuilder.buildIstioEndpoint` produces one
Endpoint Record from the captured context, an address and a port. -/
def EndpointBuilder.buildIstioEndpoint (b : EndpointBuilder) (a : String)
    (portNum : Int) (portName : String) : IstioEndpoint :=
  { address := a, endpointPort := portNum, servicePortName := portName,
    locality := b.locality, labels := b.labels }

/-- The port loop of `updateEDS` (endpointslice.go:94-109): the builder is
constructed once per address, then one record per slice port is appended, with
zero-value defaults for a missing port name or number. -/
def buildForAddress (c : ControllerState) (pod : Option Pod) (e : EndpointGo)
    (ports : List EndpointPortGo) (a : String) : List IstioEndpoint :=
  let builder := newEndpointBuilder c pod e
  ports.map (fun port =>
    builder.buildIstioEndpoint a (port.port.getD 0) (port.name.getD ""))

/-- The address loop of `updateEDS` (endpointslice.go:78-110): an address whose
pod lookup fails is skipped when the endpoint explicitly references a Pod
target; otherwise records are built (with or without pod context). -/
def buildForEndpoint (c : ControllerState) (sliceports : List EndpointPortGo)
    (e : EndpointGo) : List IstioEndpoint :=
  e.addresses.foldl (fun acc a =>
    match c.pods a with
    | none =>
      if e.targetRefKind = some "Pod" then acc
      else acc ++ buildForAddress c none e sliceports a
    | some pod => acc ++ buildForAddress c (some pod) e sliceports a) []

/-- The endpoint loop of `updateEDS` (endpointslice.go:72-112): endpoint groups
whose readiness condition is explicitly false are skipped. -/
def buildSliceEndpoints (c : ControllerState) (slice : EndpointSliceGo) :
    List IstioEndpoint :=
  slice.endpoints.foldl (fun acc e =>
    if e.ready = some false then acc
    else acc ++ buildForEndpoint c slice.ports e) []

/-- `endpointSliceController.updateEDS` (endpointslice.go:57-119): looks up the
service by hostname (skipping with no push when it is absent), rebuilds the
slice's record list (empty on a delete event), writes it into the slice cache,
and pushes the merged view for the hostname downstream.  Returns the new cache
and the pushes issued. -/
def updateEDS (c : ControllerState) (cache : EndpointCacheMap)
    (slice : EndpointSliceGo) (event : Event) : EndpointCacheMap × List EDSPush :=
  let hostname := serviceHostname slice.serviceName slice.ns c.domainSuffix
  match alGet c.servicesMap hostname with
  | none => (cache, [])
  | some _ =>
    let endpoints := if event = Event.delete then [] else buildSliceEndpoints c slice
    let cache1 := cacheUpdate cache hostname slice.name endpoints
    (cache1, [{ clusterID := c.clusterID, hostname := hostname,
                ns := slice.ns, endpoints := cacheGet cache1 hostname }])

theorem cacheGet_cacheUpdate_empty (h s : String) (eps : List IstioEndpoint) :
    cacheGet (cacheUpdate newEndpointSliceCache h s eps) h = eps := by
  rw [cacheGet, innerOf_cacheUpdate_self]
  unfold updInner
  split <;> simp [innerOf, newEndpointSliceCache, alSet, alDel, joinVals, alGet]

/-- C7: an event whose hostname has no entry in the Service Metadata is skipped:
no error is surfaced (the handler returns normally), the Slice Cache is left
unchanged and no downstream push is triggered. -/
theorem c7_unknown_service_skips (c : ControllerState) (cache : EndpointCacheMap)
    (slice : EndpointSliceGo) (event : Event)
    (habs : alGet c.servicesMap
      (serviceHostname slice.serviceName slice.ns c.domainSuffix) = none) :
    updateEDS c cache slice event = (cache, []) := by
  simp [updateEDS, habs]

/-- C7 witness: a controller with an empty service map skips an add event,
leaving the cache untouched and pushing nothing. -/
theorem c7_unknown_service_skips_witness :
    updateEDS
      { domainSuffix := "cluster.local", clusterID := "c1", servicesMap := [],
        pods := fun _ => none }
      newEndpointSliceCache
      { name := "svc-ep-1", ns := "ns", serviceName := "svc",
        endpoints := [], ports := [] }
      Event.add = (newEndpointSliceCache, []) :=
  c7_unknown_service_skips _ _ _ _ rfl

/-- C6: an add/update event for a slice holding one ready address with no
resolvable owning pod (while the endpoint explicitly references a Pod target)
and one ready address with a resolvable pod is not aborted: the cache receives
exactly the records built for the resolvable address — one per slice port, all
carrying that address and none carrying the unresolvable one — and the push to
the downstream updater still happens. -/
theorem c6_no_owner_degrades_gracefully
    (c : ControllerState) (p : Pod) (svc : Service) (slice : EndpointSliceGo)
    (e1 e2 : EndpointGo) (a1 a2 : String) (event : Event)
    (hsvc : alGet c.servicesMap
      (serviceHostname slice.serviceName slice.ns c.domainSuffix) = some svc)
    (hev : event ≠ Event.delete)
    (hep : slice.endpoints = [e1, e2])
    (he1a : e1.addresses = [a1]) (he1r : e1.ready ≠ some false)
    (he1t : e1.targetRefKind = some "Pod") (hp1 : c.pods a1 = none)
    (he2a : e2.addresses = [a2]) (he2r : e2.ready ≠ some false)
    (hp2 : c.pods a2 = some p) :
    cacheGet (updateEDS c newEndpointSliceCache slice event).1
        (serviceHostname slice.serviceName slice.ns c.domainSuffix) =
      buildForAddress c (some p) e2 slice.ports a2 ∧
    (cacheGet (updateEDS c newEndpointSliceCache slice event).1
        (serviceHostname slice.serviceName slice.ns c.domainSuffix)).length =
      slice.ports.length ∧
    (∀ r ∈ cacheGet (updateEDS c newEndpointSliceCache slice event).1
        (serviceHostname slice.serviceName slice.ns c.domainSuffix),
      r.address = a2) ∧
    (updateEDS c newEndpointSliceCache slice event).2.length = 1 := by
  have hbe1 : buildForEndpoint c slice.ports e1 = [] := by
    rw [buildForEndpoint, he1a]
    simp [hp1, he1t]
  have hbe2 : buildForEndpoint c slice.ports e2 =
      buildForAddress c (some p) e2 slice.ports a2 := by
    rw [buildForEndpoint, he2a]
    simp [hp2]
  have hbuild : buildSliceEndpoints c slice =
      buildForAddress c (some p) e2 slice.ports a2 := by
    rw [buildSliceEndpoints, hep]
    simp [if_neg he1r, if_neg he2r, hbe1, hbe2]
  have hupd : updateEDS c newEndpointSliceCache slice event =
      (cacheUpdate newEndpointSliceCache
         (serviceHostname slice.serviceName slice.ns c.domainSuffix) slice.name
         (buildForAddress c (some p) e2 slice.ports a2),
       [{ clusterID := c.clusterID,
          hostname := serviceHostname slice.serviceName slice.ns c.domainSuffix,
          ns := slice.ns,
          endpoints := cacheGet (cacheUpdate newEndpointSliceCache
            (serviceHostname slice.serviceName slice.ns c.domainSuffix)
            slice.name (buildForAddress c (some p) e2 slice.ports a2))
            (serviceHostname slice.serviceName slice.ns c.domainSuffix) }]) := by
    simp [updateEDS, hsvc, if_neg hev, hbuild]
  refine ⟨?_, ?_, ?_, ?_⟩
  · rw [hupd]
    exact cacheGet_cacheUpdate_empty ..
  · rw [hupd]
    rw [cacheGet_cacheUpdate_empty]
    simp [buildForAddress]
  · rw [hupd]
    rw [cacheGet_cacheUpdate_empty]
    intro r hr
    simp only [buildForAddress, List.mem_map] at hr
    obtain ⟨port, hport, hr⟩ := hr
    rw [← hr]
    rfl
  · rw [hupd]
    rfl

/-- The pod of the claims' scenarios, labelled app=foo, version=v1. -/
def podFoo : Pod := { labels := [("app", "foo"), ("version", "v1")] }

/-- A service with one http port, number 80. -/
def svcHttp : Service :=
  { attrName := "svc", attrNamespace := "ns",
    ports := [{ name := "http", port := 80 }] }

/-- A controller whose Service Metadata knows `svc.ns` and whose pod lookup
resolves only `10.0.0.2` (to `podFoo`). -/
def ctrlDemo : ControllerState :=
  { domainSuffix := "cluster.local", clusterID := "c1",
    servicesMap := [("svc.ns.svc.cluster.local", svcHttp)],
    pods := fun a => if a = "10.0.0.2" then some podFoo else none }

/-- A ready endpoint group with a Pod target reference whose address has no
resolvable pod. -/
def epNoPod : EndpointGo :=
  { addresses := ["10.0.0.1"], ready := some true,
    targetRefKind := some "Pod", topology := [] }

/-- A ready endpoint group whose address resolves to `podFoo`. -/
def epWithPod : EndpointGo :=
  { addresses := ["10.0.0.2"], ready := none,
    targetRefKind := some "Pod", topology := [] }

/-- A slice for `svc.ns` carrying `epNoPod` and `epWithPod` and one named port. -/
def sliceDemo : EndpointSliceGo :=
  { name := "svc-ep-1", ns := "ns", serviceName := "svc",
    endpoints := [epNoPod, epWithPod],
    ports := [{ name := some "http", port := some 80 }] }

/-- C6 witness: on the concrete two-address slice — `10.0.0.1` has no pod and a
Pod target reference, `10.0.0.2` resolves to `podFoo` — the merged view is
exactly the per-port records for `10.0.0.2`. -/
theorem c6_no_owner_degrades_gracefully_witness :
    cacheGet (updateEDS ctrlDemo newEndpointSliceCache sliceDemo Event.add).1
        "svc.ns.svc.cluster.local" =
      buildForAddress ctrlDemo (some podFoo) epWithPod sliceDemo.ports "10.0.0.2" :=
  (c6_no_owner_degrades_gracefully ctrlDemo podFoo svcHttp sliceDemo epNoPod
    epWithPod "10.0.0.1" "10.0.0.2" Event.add rfl (by decide) rfl rfl
    (by decide) rfl (by decide) rfl (by decide) (by decide)).1

/-- `model.ServiceInstance`: an Endpoint Record paired with the resolved service
port and the service. -/
structure ServiceInstance where
  endpoint : IstioEndpoint
  servicePort : ServicePort
  service : Service
deriving DecidableEq

/-- Modelled from the spec: `PortList.GetByPort` (not under src/) resolves the
service port object for a numeric port; no match yields none. -/
def getByPort : List ServicePort → Int → Option ServicePort
  | [], _ => none
  | p :: t, n => if p.port = n then some p else getByPort t n

/-- Modelled from the spec: `PortList.Get` (not under src/) resolves a service
port by name. -/
def getPortByName : List ServicePort → String → Option ServicePort
  | [], _ => none
  | p :: t, n => if p.name = n then some p else getPortByName t n

/-- Modelled from the spec: `labels.Instance.SubsetOf` (not under src/) — every
requested label key/value is present among the workload's labels, i.e. the
request's label set is fully contained in the workload's labels. -/
def labelsSubsetOf (req podLabels : List (String × String)) : Prop :=
  ∀ kv ∈ req, alGet podLabels kv.1 = some kv.2

instance (req podLabels : List (String × String)) :
    Decidable (labelsSubsetOf req podLabels) :=
  List.decidableBAll _ req

/-- Modelled from the spec: `labels.Collection.HasSubsetOf` (not under src/) —
an empty request collection matches everything; otherwise some requested label
set must be contained in the workload's labels. -/
def hasSubsetOf (req : List (List (String × String)))
    (podLabels : List (String × String)) : Prop :=
  req = [] ∨ ∃ r ∈ req, labelsSubsetOf r podLabels

instance (req : List (List (String × String)))
    (podLabels : List (String × String)) : Decidable (hasSubsetOf req podLabels) :=
  inferInstanceAs (Decidable (_ ∨ _))

theorem hasSubsetOf_singleton (sel podLabels : List (String × String)) :
    hasSubsetOf [sel] podLabels ↔ labelsSubsetOf sel podLabels := by
  simp [hasSubsetOf]

/-- `endpointSliceController.InstancesByPort` (endpointslice.go:209-264): takes
the lister result for the service's slices (or its error).  A lister error, an
empty slice list, or an unresolvable numeric port each yields an empty result
with a nil error; otherwise records are built for every address passing the
label-subset check, one per slice port whose name is absent or equals the
resolved service port's name. -/
def InstancesByPort (c : ControllerState) (svc : Service) (reqSvcPort : Int)
    (labelsList : List (List (String × String)))
    (listResult : Except String (List EndpointSliceGo)) :
    List ServiceInstance × Option String :=
  match listResult with
  | .error _ => ([], none)
  | .ok slices =>
    if slices.length = 0 then ([], none)
    else
      match getByPort svc.ports reqSvcPort with
      | none => ([], none)
      | some svcPort =>
        (slices.foldl (fun acc slice =>
          slice.endpoints.foldl (fun acc2 e =>
            e.addresses.foldl (fun acc3 a =>
              let podLabels :=
                match c.pods a with
                | some pod => pod.labels
                | none => []
              if ¬ hasSubsetOf labelsList podLabels then acc3
              else
                let builder := newEndpointBuilder c (c.pods a) e
                acc3 ++ slice.ports.filterMap (fun port =>
                  if port.name = none ∨ port.name = some svcPort.name then
                    some { endpoint := builder.buildIstioEndpoint a
                             (port.port.getD 0) svcPort.name,
                           servicePort := svcPort, service := svc }
                  else none)) acc2) acc) [], none)

/-- The owning workload's labels for an address, as the query reads them (a nil
`podLabels` when no pod resolves). -/
def podLabelsOf (c : ControllerState) (a : String) : List (String × String) :=
  match c.pods a with
  | some pod => pod.labels
  | none => []

/-- The records the query builds for one matching address: one per slice port
whose name is absent or equals the resolved service port's name. -/
def recordsForAddress (c : ControllerState) (svc : Service) (sp : ServicePort)
    (slice : EndpointSliceGo) (e : EndpointGo) (a : String) :
    List ServiceInstance :=
  slice.ports.filterMap (fun port =>
    if port.name = none ∨ port.name = some sp.name then
      some { endpoint := (newEndpointBuilder c (c.pods a) e).buildIstioEndpoint a
               (port.port.getD 0) sp.name,
             servicePort := sp, service := svc }
    else none)

/-- The claim's description of the by-port query result: over every slice, every
endpoint group and every address of the hostname, exactly the records of the
addresses whose owning workload's labels contain the requested label sets, and
no others. -/
def matchingInstances (c : ControllerState) (svc : Service) (sp : ServicePort)
    (labelsList : List (List (String × String)))
    (slices : List EndpointSliceGo) : List ServiceInstance :=
  slices.flatMap (fun slice =>
    slice.endpoints.flatMap (fun e =>
      e.addresses.flatMap (fun a =>
        if hasSubsetOf labelsList (podLabelsOf c a) then
          recordsForAddress c svc sp slice e a
        else [])))

/-- A left fold whose step appends a per-element contribution accumulates the
concatenation of all contributions. -/
theorem foldl_step_append {α β : Type} (f : List β → α → List β)
    (g : α → List β) (hf : ∀ acc x, f acc x = acc ++ g x) (l : List α)
    (acc : List β) : l.foldl f acc = acc ++ l.flatMap g := by
  induction l generalizing acc with
  | nil => simp
  | cons x t ih =>
    rw [List.foldl_cons, hf, ih, List.flatMap_cons, List.append_assoc]

/-- The address-loop body of `InstancesByPort` appends exactly the records of
the address when the label check passes and nothing otherwise. -/
theorem instances_addr_step (c : ControllerState) (svc : Service)
    (sp : ServicePort) (labelsList : List (List (String × String)))
    (slice : EndpointSliceGo) (e : EndpointGo) (acc : List ServiceInstance)
    (a : String) :
    (let podLabels :=
       match c.pods a with
       | some pod => pod.labels
       | none => []
     if ¬ hasSubsetOf labelsList podLabels then acc
     else
       let builder := newEndpointBuilder c (c.pods a) e
       acc ++ slice.ports.filterMap (fun port =>
         if port.name = none ∨ port.name = some sp.name then
           some { endpoint := builder.buildIstioEndpoint a
                    (port.port.getD 0) sp.name,
                  servicePort := sp, service := svc }
         else none)) =
      acc ++ (if hasSubsetOf labelsList (podLabelsOf c a) then
        recordsForAddress c svc sp slice e a else []) := by
  cases hp : c.pods a with
  | none =>
    by_cases hsub : hasSubsetOf labelsList ([] : List (String × String))
    · simp [podLabelsOf, recordsForAddress, hp, hsub]
    · simp [podLabelsOf, hp, hsub]
  | some pod =>
    by_cases hsub : hasSubsetOf labelsList pod.labels
    · simp [podLabelsOf, recordsForAddress, hp, hsub]
    · simp [podLabelsOf, hp, hsub]

/-- C8: `instancesByPort` first resolves the service port object for the numeric
port, returning an empty result (not an error) when none matches; when it
resolves, the result over every slice, endpoint group and address of the
hostname is exactly the per-port records of the addresses whose owning
workload's labels are a superset of every requested label (the request's label
set is fully contained in the workload's labels, not the reverse), and no
others. -/
theorem c8_instances_by_port_label_superset
    (c : ControllerState) (svc : Service) (reqSvcPort : Int)
    (labelsList : List (List (String × String)))
    (slices : List EndpointSliceGo) :
    (getByPort svc.ports reqSvcPort = none →
      InstancesByPort c svc reqSvcPort labelsList (Except.ok slices) =
        ([], none)) ∧
    (∀ sp, getByPort svc.ports reqSvcPort = some sp →
      InstancesByPort c svc reqSvcPort labelsList (Except.ok slices) =
        (matchingInstances c svc sp labelsList slices, none)) := by
  constructor
  · intro hnone
    simp [InstancesByPort, hnone]
  · intro sp hsp
    by_cases hlen : slices.length = 0
    · have hnil : slices = [] := List.length_eq_zero.mp hlen
      subst hnil
      simp [InstancesByPort, hsp, matchingInstances]
    · have h3 := fun (slice : EndpointSliceGo) (e : EndpointGo)
          (acc : List ServiceInstance) =>
        foldl_step_append _ _
          (instances_addr_step c svc sp labelsList slice e) e.addresses acc
      have h2 := fun (slice : EndpointSliceGo) (acc : List ServiceInstance) =>
        foldl_step_append _ _ (fun acc2 e => h3 slice e acc2) slice.endpoints acc
      have h1 := foldl_step_append _ _ (fun acc slice => h2 slice acc) slices
        ([] : List ServiceInstance)
      rw [List.nil_append] at h1
      simp only [InstancesByPort, hsp]
      rw [if_neg hlen]
      exact congrArg (fun x => (x, (none : Option String))) h1

/-- The pod of the negative scenario, labelled app=bar. -/
def podBar : Pod := { labels := [("app", "bar")] }

/-- An endpoint group whose single address resolves to `podFoo`. -/
def epFoo : EndpointGo :=
  { addresses := ["10.0.0.2"], ready := none, targetRefKind := none,
    topology := [] }

/-- An endpoint group whose single address resolves to `podBar`. -/
def epBar : EndpointGo :=
  { addresses := ["10.0.0.3"], ready := none, targetRefKind := none,
    topology := [] }

/-- A controller resolving `10.0.0.2` to `podFoo` and `10.0.0.3` to `podBar`. -/
def ctrlQuery : ControllerState :=
  { domainSuffix := "cluster.local", clusterID := "c1",
    servicesMap := [("svc.ns.svc.cluster.local", svcHttp)],
    pods := fun a =>
      if a = "10.0.0.2" then some podFoo
      else if a = "10.0.0.3" then some podBar else none }

/-- A slice whose only address is backed by `podFoo`. -/
def sliceFoo : EndpointSliceGo :=
  { name := "svc-ep-1", ns := "ns", serviceName := "svc", endpoints := [epFoo],
    ports := [{ name := some "http", port := some 80 }] }

/-- A slice whose only address is backed by `podBar`. -/
def sliceBar : EndpointSliceGo :=
  { name := "svc-ep-2", ns := "ns", serviceName := "svc", endpoints := [epBar],
    ports := [{ name := some "http", port := some 80 }] }

/-- C8 witness: the spec's scenario over a two-slice population — selector
{app:foo} returns exactly the one record of the workload labelled
{app:foo, version:v1} and nothing for the workload labelled {app:bar}; and
port 81 resolves no service port, so the query returns empty with a nil
error. -/
theorem c8_instances_by_port_label_superset_witness :
    InstancesByPort ctrlQuery svcHttp 80 [[("app", "foo")]]
        (Except.ok [sliceFoo, sliceBar]) =
      ([{ endpoint :=
            { address := "10.0.0.2", endpointPort := 80,
              servicePortName := "http", locality := "",
              labels := [("app", "foo"), ("version", "v1"),
                (LocalityLabel, "")] },
          servicePort := { name := "http", port := 80 },
          service := svcHttp }], none) ∧
    InstancesByPort ctrlQuery svcHttp 81 [[("app", "foo")]]
        (Except.ok [sliceFoo, sliceBar]) = ([], none) := by
  refine ⟨?_, ?_⟩
  · exact ((c8_instances_by_port_label_superset ctrlQuery svcHttp 80
      [[("app", "foo")]] [sliceFoo, sliceBar]).2
      { name := "http", port := 80 } rfl).trans (by decide)
  · exact (c8_instances_by_port_label_superset ctrlQuery svcHttp 81
      [[("app", "foo")]] [sliceFoo, sliceBar]).1 rfl

/-- C10: `InstancesByPort` never returns a non-nil error: the error component is
nil for every input, and each failure condition — lister error, no slices found,
unresolvable numeric port — is reported as the empty result paired with a nil
error, indistinguishable from a genuinely empty endpoint set. -/
theorem c10_instances_by_port_never_errors (c : ControllerState) (svc : Service)
    (reqSvcPort : Int) (labelsList : List (List (String × String)))
    (listResult : Except String (List EndpointSliceGo)) :
    (InstancesByPort c svc reqSvcPort labelsList listResult).2 = none ∧
    (∀ msg, InstancesByPort c svc reqSvcPort labelsList (Except.error msg) =
      ([], none)) ∧
    InstancesByPort c svc reqSvcPort labelsList (Except.ok []) = ([], none) ∧
    (getByPort svc.ports reqSvcPort = none →
      ∀ slices, InstancesByPort c svc reqSvcPort labelsList (Except.ok slices) =
        ([], none)) := by
  refine ⟨?_, fun msg => rfl, rfl, fun hnp slices => by simp [InstancesByPort, hnp]⟩
  cases listResult with
  | error msg => rfl
  | ok slices =>
    simp only [InstancesByPort]
    split
    · rfl
    · cases hg : getByPort svc.ports reqSvcPort <;> simp [hg]

/-- C10 witness: an unresolvable numeric port (81 against a service exposing
only 80) yields the empty result paired with a nil error. -/
theorem c10_instances_by_port_never_errors_witness :
    (InstancesByPort ctrlQuery svcHttp 81 [] (Except.ok [sliceFoo])).2 = none ∧
    InstancesByPort ctrlQuery svcHttp 81 [] (Except.ok [sliceFoo]) = ([], none) :=
  have H := c10_instances_by_port_never_errors ctrlQuery svcHttp 81 []
    (Except.ok [sliceFoo])
  ⟨H.1, H.2.2.2 rfl [sliceFoo]⟩

/-- `model.Proxy`: the fields the query reads — namespace and IP addresses. -/
structure Proxy where
  ns : String
  ipAddresses : List String
deriving DecidableEq

/-- `endpointSliceController.proxyServiceInstances` (endpointslice.go:160-207).
The unguarded Go access `proxy.IPAddresses[0]` (line 172) is embedded as
`head?`, with `none` modelling the aborted out-of-range access; it is reached
whenever the slice's service is known to the registry. -/
def proxyServiceInstances (c : ControllerState) (ep : EndpointSliceGo)
    (proxy : Proxy) : Option (List ServiceInstance) :=
  match alGet c.servicesMap (serviceHostname ep.serviceName ep.ns c.domainSuffix) with
  | none => some []
  | some svc =>
    match proxy.ipAddresses.head? with
    | none => none
    | some podIP =>
      let builder := NewEndpointBuilder c (c.pods podIP)
      some (ep.ports.foldl (fun acc port =>
        match port.name, port.port with
        | some pname, some pnum =>
          (match getPortByName svc.ports pname with
           | none => acc
           | some svcPort =>
             proxy.ipAddresses.foldl (fun acc2 ip =>
               ep.endpoints.foldl (fun acc3 e =>
                 e.addresses.foldl (fun acc4 a =>
                   if a = ip then
                     acc4 ++ [{ endpoint := builder.buildIstioEndpoint ip pnum
                                  svcPort.name,
                                servicePort := svcPort, service := svc }]
                   else acc4) acc3) acc2) acc)
        | _, _ => acc) [])

/-- `endpointSliceController.GetProxyServiceInstances` (endpointslice.go:145-158):
a lister error yields an empty result; otherwise the per-slice instances of
every slice in the proxy's namespace are appended, with `none` propagating an
aborted per-slice computation. -/
def GetProxyServiceInstances (c : ControllerState)
    (listResult : Except String (List EndpointSliceGo)) (proxy : Proxy) :
    Option (List ServiceInstance) :=
  match listResult with
  | .error _ => some []
  | .ok eps =>
    eps.foldlM (fun acc ep => (proxyServiceInstances c ep proxy).map
      (fun is => acc ++ is)) ([] : List ServiceInstance)

theorem foldlM_none_of_mem (c : ControllerState) (proxy : Proxy)
    {l : List EndpointSliceGo} {ep : EndpointSliceGo} (hmem : ep ∈ l)
    (hnone : proxyServiceInstances c ep proxy = none)
    (acc : List ServiceInstance) :
    l.foldlM (fun acc ep => (proxyServiceInstances c ep proxy).map
      (fun is => acc ++ is)) acc = none := by
  induction l generalizing acc with
  | nil => cases hmem
  | cons hd tl ih =>
    rw [List.foldlM_cons]
    rcases List.mem_cons.mp hmem with heq | hmem'
    · subst heq
      rw [hnone]
      rfl
    · cases hh : proxyServiceInstances c hd proxy with
      | none => rfl
      | some v =>
        simpa using ih hmem' (acc ++ v)

/-- C9: the by-proxy-identity query is not total at the public interface: with
an empty proxy address list and at least one endpoint slice in the namespace
belonging to a service known to the registry, the per-slice computation reaches
the unguarded access to address index 0 and the query cannot produce a result
(modelled `none`) instead of returning an empty list. -/
theorem c9_empty_proxy_addresses_aborts (c : ControllerState)
    (eps : List EndpointSliceGo) (proxy : Proxy) (ep : EndpointSliceGo)
    (hmem : ep ∈ eps)
    (hsvc : (alGet c.servicesMap
      (serviceHostname ep.serviceName ep.ns c.domainSuffix)).isSome)
    (haddr : proxy.ipAddresses = []) :
    GetProxyServiceInstances c (Except.ok eps) proxy = none := by
  have hep : proxyServiceInstances c ep proxy = none := by
    obtain ⟨svc, hs⟩ := Option.isSome_iff_exists.mp hsvc
    simp [proxyServiceInstances, hs, haddr]
  exact foldlM_none_of_mem c proxy hmem hep []

/-- C9 witness: a proxy with no addresses in a namespace holding one slice of
the known service `svc.ns`: the query aborts instead of returning empty. -/
theorem c9_empty_proxy_addresses_aborts_witness :
    GetProxyServiceInstances ctrlQuery (Except.ok [sliceFoo])
      { ns := "ns", ipAddresses := [] } = none :=
  c9_empty_proxy_addresses_aborts ctrlQuery [sliceFoo]
    { ns := "ns", ipAddresses := [] } sliceFoo (by simp) (by decide) rfl

end IstioSlice
